import Mathlib

/-
Verification of the jetton/NFT metadata decoder (src/main.ts).

The decoder works over TON cells: immutable binary-tree nodes holding a bit
string plus an ordered list of child-cell references.  A slice is a forward
cursor over one cell; since the decoder only ever consumes a slice linearly,
a slice is modelled by the pair of its remaining bits and remaining child
references, i.e. by the same shape as a cell.

Bits are lists of booleans (most significant bit first), bytes are natural
numbers below 256, buffers are lists of bytes.  Fallible decoding returns
an Except value whose error component is the thrown JS Error message.
External collaborators (the serialized-dictionary reader of ton-core, the
HTTP fetcher, the remote contract reader) are passed in as explicit function
parameters; the SHA-256 hash used for dictionary keys is implemented
in full below.
-/

/-- Assemble one byte from a list of bits, most significant bit first. -/
def byteOfBits (l : List Bool) : Nat :=
  l.foldl (fun a b => 2 * a + cond b 1 0) 0

/-- The eight bits of a byte, most significant first. -/
def byteToBits (b : Nat) : List Bool :=
  [b.testBit 7, b.testBit 6, b.testBit 5, b.testBit 4,
   b.testBit 3, b.testBit 2, b.testBit 1, b.testBit 0]

/-- The bit string of a byte buffer. -/
def bytesToBits (bs : List Nat) : List Bool :=
  (bs.map byteToBits).flatten

/-- ton-core bitsToPaddedBuffer: pack a bit string into whole bytes; a final
partial byte is completed with a single one bit followed by zero bits. -/
def bitsToPaddedBuffer : List Bool → List Nat
  | b0 :: b1 :: b2 :: b3 :: b4 :: b5 :: b6 :: b7 :: rest =>
      byteOfBits [b0, b1, b2, b3, b4, b5, b6, b7] :: bitsToPaddedBuffer rest
  | [] => []
  | l => [byteOfBits (l ++ true :: List.replicate (7 - l.length) false)]

/-- Slice.loadUint(8): read the first eight bits as an unsigned byte,
returning the byte and the remaining bits; none models the out-of-bounds
read error of the underlying bit reader. -/
def loadUint8 : List Bool → Option (Nat × List Bool)
  | b0 :: b1 :: b2 :: b3 :: b4 :: b5 :: b6 :: b7 :: rest =>
      some (byteOfBits [b0, b1, b2, b3, b4, b5, b6, b7], rest)
  | _ => none

/-- A TON cell: a bit string plus an ordered list of child-cell references.
A slice (the remainder of a one-shot cursor) is modelled by the same type. -/
inductive Cell where
  | mk (bits : List Bool) (refs : List Cell)

/-- Remaining bits of a cell or slice. -/
def Cell.bits : Cell → List Bool
  | .mk b _ => b

/-- Remaining child references of a cell or slice. -/
def Cell.refs : Cell → List Cell
  | .mk _ r => r

/-- Message of the error thrown by sliceToVal on a bad first-fragment tag
(src/main.ts line 149). -/
def snakeErrMsg : String := "Only snake format is supported"

/-- Message of the error thrown by readContent on an unknown content tag
(src/main.ts line 61).  It is a fixed string: the offending byte is not
part of the error. -/
def unknownTagMsg : String := "Unexpected jetton metadata content prefix"

/-- Stand-in message for the error the external cell library throws when a
read runs past the available bits or references of a slice. -/
def underrunMsg : String := "Slice out of bounds"

/-- The 8-bit tag expected at the start of the first snake fragment
(SNAKE_PREFIX, src/main.ts line 32). -/
def snakeTagByte : Nat := 0x00

/-- The 8-bit content tag selecting the on-ledger parser
(ONCHAIN_CONTENT_PREFIX, src/main.ts line 30). -/
def onchainTagByte : Nat := 0x00

/-- The 8-bit content tag selecting the off-ledger resolver
(OFFCHAIN_CONTENT_PREFIX, src/main.ts line 31). -/
def offchainTagByte : Nat := 0x01

/-- First-fragment tag check of sliceToVal: load one byte and require it to
equal the snake tag (src/main.ts line 148).  Returns the remaining bits. -/
def checkSnakeTag (bits : List Bool) : Except String (List Bool) :=
  match loadUint8 bits with
  | none => Except.error underrunMsg
  | some (b, rest) =>
      if b ≠ snakeTagByte then Except.error snakeErrMsg else Except.ok rest

/-- sliceToVal (src/main.ts lines 146-159): accumulate the snake chain of a
field value.  On the first fragment an 8-bit snake tag is consumed and
checked; every fragment then contributes its remaining bits, packed into
whole bytes, to the accumulator.  The chain continues into the single child
reference exactly when the fragment has exactly one remaining reference. -/
def sliceToVal : Cell → List Nat → Bool → Except String (List Nat)
  | Cell.mk bits refs, v, isFirst =>
    match (if isFirst then checkSnakeTag bits else Except.ok bits) with
    | Except.error e => Except.error e
    | Except.ok rest =>
      match refs with
      | [r] => sliceToVal r (v ++ bitsToPaddedBuffer rest) false
      | _ => Except.ok (v ++ bitsToPaddedBuffer rest)

/-- The closed set of known metadata field names (src/main.ts lines 11-17). -/
inductive JettonMetaDataKeys where
  | name
  | description
  | image
  | symbol
  | image_data
  | decimals
deriving DecidableEq

/-- The string form of each field name, as used for key hashing. -/
def fieldName : JettonMetaDataKeys → String
  | .name => "name"
  | .description => "description"
  | .image => "image"
  | .symbol => "symbol"
  | .image_data => "image_data"
  | .decimals => "decimals"

/-- Text encodings a field value may be converted with. -/
inductive StrEncoding where
  | utf8
  | ascii
deriving DecidableEq

/-- jettonOnChainMetadataSpec (src/main.ts lines 19-28): the per-field
encoding table; image_data has no entry (undefined). -/
def jettonOnChainMetadataSpec : JettonMetaDataKeys → Option StrEncoding
  | .name => some StrEncoding.utf8
  | .description => some StrEncoding.utf8
  | .image => some StrEncoding.ascii
  | .decimals => some StrEncoding.utf8
  | .symbol => some StrEncoding.utf8
  | .image_data => none

/-- The Unicode replacement character emitted by lossy UTF-8 decoding. -/
def replChar : Char := Char.ofNat 0xFFFD

/-- Lossy UTF-8 decoding of a byte buffer (the WHATWG algorithm used by
Buffer.toString with the utf8 encoding): malformed sequences become one
replacement character per rejected lead byte, resuming at the first byte
that failed to continue the sequence. -/
def utf8DecodeList : List Nat → List Char
  | [] => []
  | b :: rest =>
    if b < 0x80 then Char.ofNat b :: utf8DecodeList rest
    else if 0xC2 ≤ b ∧ b ≤ 0xDF then
      match rest with
      | [] => [replChar]
      | c1 :: rest1 =>
        if 0x80 ≤ c1 ∧ c1 ≤ 0xBF then
          Char.ofNat ((b - 0xC0) * 0x40 + (c1 - 0x80)) :: utf8DecodeList rest1
        else replChar :: utf8DecodeList (c1 :: rest1)
    else if 0xE0 ≤ b ∧ b ≤ 0xEF then
      match rest with
      | [] => [replChar]
      | c1 :: rest1 =>
        if (if b = 0xE0 then 0xA0 else 0x80) ≤ c1 ∧
            c1 ≤ (if b = 0xED then 0x9F else 0xBF) then
          match rest1 with
          | [] => [replChar]
          | c2 :: rest2 =>
            if 0x80 ≤ c2 ∧ c2 ≤ 0xBF then
              Char.ofNat ((b - 0xE0) * 0x1000 + (c1 - 0x80) * 0x40 + (c2 - 0x80)) ::
                utf8DecodeList rest2
            else replChar :: utf8DecodeList (c2 :: rest2)
        else replChar :: utf8DecodeList (c1 :: rest1)
    else if 0xF0 ≤ b ∧ b ≤ 0xF4 then
      match rest with
      | [] => [replChar]
      | c1 :: rest1 =>
        if (if b = 0xF0 then 0x90 else 0x80) ≤ c1 ∧
            c1 ≤ (if b = 0xF4 then 0x8F else 0xBF) then
          match rest1 with
          | [] => [replChar]
          | c2 :: rest2 =>
            if 0x80 ≤ c2 ∧ c2 ≤ 0xBF then
              match rest2 with
              | [] => [replChar]
              | c3 :: rest3 =>
                if 0x80 ≤ c3 ∧ c3 ≤ 0xBF then
                  Char.ofNat ((b - 0xF0) * 0x40000 + (c1 - 0x80) * 0x1000 +
                      (c2 - 0x80) * 0x40 + (c3 - 0x80)) :: utf8DecodeList rest3
                else replChar :: utf8DecodeList (c3 :: rest3)
            else replChar :: utf8DecodeList (c2 :: rest2)
        else replChar :: utf8DecodeList (c1 :: rest1)
    else replChar :: utf8DecodeList rest

/-- Decoding of a byte buffer with the Node ascii encoding: the high bit of
every byte is stripped. -/
def asciiDecode (bs : List Nat) : List Char :=
  bs.map (fun b => Char.ofNat (b % 128))

/-- Buffer.toString with an optional encoding argument (src/main.ts line
174): ascii strips high bits, utf8 decodes lossily, and a missing encoding
(the undefined table entry of image_data) falls back to the Node default,
which is utf8. -/
def bufferToString (enc : Option StrEncoding) (buf : List Nat) : String :=
  match enc with
  | some StrEncoding.ascii => String.mk (asciiDecode buf)
  | some StrEncoding.utf8 => String.mk (utf8DecodeList buf)
  | none => String.mk (utf8DecodeList buf)

/-- UTF-8 encoding of one character. -/
def utf8EncodeChar (c : Char) : List Nat :=
  let n := c.toNat
  if n < 0x80 then [n]
  else if n < 0x800 then [0xC0 + n / 0x40, 0x80 + n % 0x40]
  else if n < 0x10000 then
    [0xE0 + n / 0x1000, 0x80 + n / 0x40 % 0x40, 0x80 + n % 0x40]
  else
    [0xF0 + n / 0x40000, 0x80 + n / 0x1000 % 0x40, 0x80 + n / 0x40 % 0x40,
     0x80 + n % 0x40]

/-- UTF-8 encoding of a string, as the hash helper applies to field names. -/
def utf8Encode (s : String) : List Nat :=
  (s.data.map utf8EncodeChar).flatten

/-- The 32-bit word modulus of SHA-256 arithmetic. -/
def w32 : Nat := 4294967296

/-- Right rotation of a 32-bit word. -/
def rotr32 (n x : Nat) : Nat :=
  (x >>> n) ||| ((x % (2 ^ n)) <<< (32 - n))

/-- SHA-256 choice function. -/
def ch32 (e f g : Nat) : Nat :=
  (e &&& f) ^^^ (((w32 - 1) ^^^ e) &&& g)

/-- SHA-256 majority function. -/
def maj32 (a b c : Nat) : Nat :=
  (a &&& b) ^^^ (a &&& c) ^^^ (b &&& c)

/-- SHA-256 big sigma 0. -/
def bsig0 (x : Nat) : Nat := rotr32 2 x ^^^ rotr32 13 x ^^^ rotr32 22 x

/-- SHA-256 big sigma 1. -/
def bsig1 (x : Nat) : Nat := rotr32 6 x ^^^ rotr32 11 x ^^^ rotr32 25 x

/-- SHA-256 small sigma 0. -/
def ssig0 (x : Nat) : Nat := rotr32 7 x ^^^ rotr32 18 x ^^^ (x >>> 3)

/-- SHA-256 small sigma 1. -/
def ssig1 (x : Nat) : Nat := rotr32 17 x ^^^ rotr32 19 x ^^^ (x >>> 10)

/-- The 64 SHA-256 round constants. -/
def sha256K : List Nat :=
  [1116352408, 1899447441, 3049323471, 3921009573, 961987163,
   1508970993, 2453635748, 2870763221, 3624381080, 310598401,
   607225278, 1426881987, 1925078388, 2162078206, 2614888103,
   3248222580, 3835390401, 4022224774, 264347078, 604807628,
   770255983, 1249150122, 1555081692, 1996064986, 2554220882,
   2821834349, 2952996808, 3210313671, 3336571891, 3584528711,
   113926993, 338241895, 666307205, 773529912, 1294757372,
   1396182291, 1695183700, 1986661051, 2177026350, 2456956037,
   2730485921, 2820302411, 3259730800, 3345764771, 3516065817,
   3600352804, 4094571909, 275423344, 430227734, 506948616,
   659060556, 883997877, 958139571, 1322822218, 1537002063,
   1747873779, 1955562222, 2024104815, 2227730452, 2361852424,
   2428436474, 2756734187, 3204031479, 3329325298]

/-- The initial SHA-256 state. -/
def sha256Init : List Nat :=
  [1779033703, 3144134277, 1013904242, 2773480762, 1359893119,
   2600822924, 528734635, 1541459225]

/-- SHA-256 message padding: a one byte, zero bytes up to 56 mod 64, then
the bit length as eight big-endian bytes. -/
def sha256Pad (msg : List Nat) : List Nat :=
  let L := msg.length
  msg ++ 0x80 :: List.replicate ((119 - L % 64) % 64) 0 ++
    [((L * 8) >>> 56) % 256, ((L * 8) >>> 48) % 256,
     ((L * 8) >>> 40) % 256, ((L * 8) >>> 32) % 256,
     ((L * 8) >>> 24) % 256, ((L * 8) >>> 16) % 256,
     ((L * 8) >>> 8) % 256, (L * 8) % 256]

/-- Group a padded byte list into big-endian 32-bit words. -/
def bytesToWords : List Nat → List Nat
  | a :: b :: c :: d :: rest =>
      (a * 0x1000000 + b * 0x10000 + c * 0x100 + d) :: bytesToWords rest
  | _ => []

/-- Group a word list into 16-word blocks (the input length is a multiple
of 16 for padded messages; a final short group cannot arise there). -/
def toBlocks : List Nat → List (List Nat)
  | w0 :: w1 :: w2 :: w3 :: w4 :: w5 :: w6 :: w7 ::
    w8 :: w9 :: w10 :: w11 :: w12 :: w13 :: w14 :: w15 :: rest =>
      [w0, w1, w2, w3, w4, w5, w6, w7,
       w8, w9, w10, w11, w12, w13, w14, w15] :: toBlocks rest
  | [] => []
  | l => [l]

/-- Extend a 16-word block to the 64-word message schedule. -/
def extendW (ws : List Nat) : List Nat :=
  (List.range 48).foldl
    (fun w i =>
      w ++ [(ssig1 (w.getD (i + 14) 0) + w.getD (i + 9) 0 +
             ssig0 (w.getD (i + 1) 0) + w.getD i 0) % w32])
    ws

/-- One SHA-256 compression round on the eight-word working state. -/
def sha256Round (w : List Nat) (st : List Nat) (t : Nat) : List Nat :=
  match st with
  | [a, b, c, d, e, f, g, hh] =>
    let t1 := (hh + bsig1 e + ch32 e f g + sha256K.getD t 0 + w.getD t 0) % w32
    let t2 := (bsig0 a + maj32 a b c) % w32
    [(t1 + t2) % w32, a, b, c, (d + t1) % w32, e, f, g]
  | other => other

/-- SHA-256 compression of one 16-word block into the running hash state. -/
def sha256Compress (h : List Nat) (block : List Nat) : List Nat :=
  let w := extendW block
  let st := (List.range 64).foldl (sha256Round w) h
  (h.zip st).map (fun p => (p.1 + p.2) % w32)

/-- The SHA-256 digest of a byte message, read as one big-endian 256-bit
natural number — exactly how toKey turns the hex digest into a key
(src/main.ts lines 34-38 and 138). -/
def sha256Nat (msg : List Nat) : Nat :=
  ((toBlocks (bytesToWords (sha256Pad msg))).foldl sha256Compress
      sha256Init).foldl (fun a w => a * w32 + w) 0

/-- The dictionary key of a field name: the SHA-256 digest of its UTF-8
bytes as a 256-bit integer. -/
def sha256Key (s : String) : Nat :=
  sha256Nat (utf8Encode s)

/-- The dictionary-value reader (src/main.ts lines 143-166, the callback
given to parseDict): a value slice with zero remaining references is the
faulty non-indirected form — its snake chain starts right there and the
returned flag is true; otherwise the reader descends into the first child
reference and the flag is false. -/
def readDictValue (s : Cell) : Except String (List Nat × Bool) :=
  match s.refs with
  | [] => (sliceToVal s [] true).map (fun v => (v, true))
  | r :: _ => (sliceToVal r [] true).map (fun v => (v, false))

/-- Decode every entry of the parsed dictionary, in order, accumulating the
whole-record faulty-encoding flag across entries; the first failing value
aborts the whole decode. -/
def parseEntries : List (Nat × Cell) → Except String (List (Nat × List Nat) × Bool)
  | [] => Except.ok ([], false)
  | (k, c) :: rest =>
    match readDictValue c with
    | Except.error e => Except.error e
    | Except.ok (v, f) =>
      match parseEntries rest with
      | Except.error e => Except.error e
      | Except.ok (d, frest) => Except.ok ((k, v) :: d, f || frest)

/-- A metadata record: each known field name optionally maps to a string. -/
def Metadata : Type := JettonMetaDataKeys → Option String

/-- Field assembly (src/main.ts lines 169-176): look each known field's
hashed key up in the decoded dictionary, convert the buffer with the
field's table encoding, and keep the value only when it is truthy — a
missing key or an empty decoded string leaves the field absent. -/
def buildRes (dict : List (Nat × List Nat)) : Metadata :=
  fun k =>
    match List.lookup (sha256Key (fieldName k)) dict with
    | none => none
    | some buf =>
      let val := bufferToString (jettonOnChainMetadataSpec k) buf
      if val = "" then none else some val

/-- parseJettonOnchainMetadata after the dictionary has been decoded into
its entry list: decode every value, then assemble the six known fields. -/
def parseJettonOnchainEntries (entries : List (Nat × Cell)) :
    Except String (Metadata × Bool) :=
  match parseEntries entries with
  | Except.error e => Except.error e
  | Except.ok (d, f) => Except.ok (buildRes d, f)

/-- parseJettonOnchainMetadata (src/main.ts lines 133-181): load the
dictionary root reference from the content slice and parse it with the
external serialized-dictionary reader pd, then decode all entries. -/
def parseJettonOnchainMetadata (pd : Cell → List (Nat × Cell))
    (contentSlice : Cell) : Except String (Metadata × Bool) :=
  match contentSlice.refs with
  | [] => Except.error underrunMsg
  | r :: _ => parseJettonOnchainEntries (pd r)

/-- Does the character list start with the given pattern? -/
def leadsWith : List Char → List Char → Bool
  | [], _ => true
  | _ :: _, [] => false
  | p :: ps, c :: cs => p == c && leadsWith ps cs

/-- Does the pattern occur anywhere in the character list? -/
def containsSub (pat : List Char) : List Char → Bool
  | [] => leadsWith pat []
  | c :: cs => leadsWith pat (c :: cs) || containsSub pat cs

/-- JS String.replace with a plain string pattern: replace the first
occurrence of the pattern, leaving the rest untouched; a string with no
occurrence is returned unchanged. -/
def replaceFirstL (pat rep : List Char) : List Char → List Char
  | [] => if leadsWith pat [] then rep else []
  | c :: cs =>
    if leadsWith pat (c :: cs) then rep ++ (c :: cs).drop pat.length
    else c :: replaceFirstL pat rep cs

/-- The characters of the rewritten pseudo-scheme. -/
def ipfsSchemeChars : List Char := ['i', 'p', 'f', 's', ':', '/', '/']

/-- The characters of the gateway URL substituted for the pseudo-scheme. -/
def gatewayChars : List Char :=
  ['h', 't', 't', 'p', 's', ':', '/', '/', 'i', 'p', 'f', 's', '.', 'i',
   'o', '/', 'i', 'p', 'f', 's', '/']

/-- The decoded off-ledger URI before rewriting: all remaining bits of the
content slice packed into bytes and read with the ascii encoding
(src/main.ts lines 187-190). -/
def offchainRawText (contentSlice : Cell) : String :=
  String.mk (asciiDecode (bitsToPaddedBuffer contentSlice.bits))

/-- jsonURI (src/main.ts lines 189-191): the decoded ascii string with the
first occurrence of the pseudo-scheme replaced by the gateway URL. -/
def offchainJsonURI (contentSlice : Cell) : String :=
  String.mk (replaceFirstL ipfsSchemeChars gatewayChars
    (offchainRawText contentSlice).data)

/-- Does ipfs followed by a dot or colon occur right after the start? -/
def ipfsMatchHere : List Char → Bool
  | 'i' :: 'p' :: 'f' :: 's' :: c :: _ => c == '.' || c == ':'
  | _ => false

/-- Does ipfs followed by a dot or colon occur right after some slash? -/
def ipfsAfterSlash : List Char → Bool
  | [] => false
  | c :: cs => (c == '/' && ipfsMatchHere cs) || ipfsAfterSlash cs

/-- The IPFS classification regex of src/main.ts line 195: the string
matches when ipfs followed by a dot or colon appears at the start or right
after a slash. -/
def isIpfsUri (s : String) : Bool :=
  ipfsMatchHere s.data || ipfsAfterSlash s.data

/-- parseJettonOffchainMetadata (src/main.ts lines 183-197) with the HTTP
fetcher passed in: fetch the rewritten URI and classify it. -/
def parseJettonOffchainMetadata (fetch : String → Metadata)
    (contentSlice : Cell) : Metadata × Bool :=
  (fetch (offchainJsonURI contentSlice), isIpfsUri (offchainJsonURI contentSlice))

/-- The persistence classification of a decoded content cell. -/
inductive PersistenceType where
  | onchain
  | offchain_private_domain
  | offchain_ipfs
deriving DecidableEq

/-- The result of readContent: classification, metadata record, and the
faulty-encoding flag (present only for on-ledger content). -/
structure ResolvedMetadata where
  persistenceType : PersistenceType
  metadata : Metadata
  isJettonDeployerFaultyOnChainData : Option Bool

/-- readContent (src/main.ts lines 40-63): read the first eight bits of the
content cell as a tag and dispatch — zero selects the on-ledger parser on
the remaining slice, one the off-ledger resolver, and anything else throws
the fixed unknown-tag error. -/
def readContent (pd : Cell → List (Nat × Cell)) (fetch : String → Metadata)
    (contentCell : Cell) : Except String ResolvedMetadata :=
  match loadUint8 contentCell.bits with
  | none => Except.error underrunMsg
  | some (tag, rest) =>
    if tag = onchainTagByte then
      match parseJettonOnchainMetadata pd (Cell.mk rest contentCell.refs) with
      | Except.error e => Except.error e
      | Except.ok (m, faulty) =>
          Except.ok ⟨PersistenceType.onchain, m, some faulty⟩
    else if tag = offchainTagByte then
      let mi := parseJettonOffchainMetadata fetch (Cell.mk rest contentCell.refs)
      Except.ok ⟨if mi.2 then PersistenceType.offchain_ipfs
                 else PersistenceType.offchain_private_domain, mi.1, none⟩
    else Except.error unknownTagMsg

/-- The text of all remaining bits of a cell, packed into bytes and read
with the parameterless Buffer.toString, whose default encoding is utf8. -/
def cellText (c : Cell) : String :=
  String.mk (utf8DecodeList (bitsToPaddedBuffer c.bits))

/-- readNftItemMetadata (src/main.ts lines 92-106) after the two remote
reads: the collection-provided content cell decodes to the base path; an
item content cell with zero remaining bits fetches the base path alone,
and otherwise the item's decoded text is appended to the base path with no
separator before fetching. -/
def readNftItemMetadata (fetch : String → String)
    (nftCollectionContent individual_item_content : Cell) : String :=
  let pathBase := cellText nftCollectionContent
  if individual_item_content.bits.length = 0 then fetch pathBase
  else fetch (pathBase ++ cellText individual_item_content)

/-- Build a snake chain of fragment cells from per-fragment byte payloads:
each fragment holds its bytes as bits, and each non-final fragment holds
exactly one child reference to the next fragment. -/
def chainCells : List Nat → List (List Nat) → Cell
  | bs, [] => Cell.mk (bytesToBits bs) []
  | bs, next :: more => Cell.mk (bytesToBits bs) [chainCells next more]

/-- Trivial serialized-dictionary reader used to instantiate external-reader
parameters in concrete checks. -/
def pd0 : Cell → List (Nat × Cell) := fun _ => []

/-- Trivial metadata fetcher used to instantiate fetch parameters. -/
def fetch0 : String → Metadata := fun _ _ => none

/-- Identity fetcher: returns the requested URL, exposing which URL a call
fetches. -/
def idFetch : String → String := fun s => s

/-- Example URI: the rewritten gateway form of an ipfs pseudo-scheme URI. -/
def exUri1 : String := "https://ipfs.io/ipfs/abc/123"

/-- Example URI on a private domain. -/
def exUri2 : String := "https://example.com/meta.json"

/-- Example URI whose host merely ends in ipfs. -/
def exUri3 : String := "https://myipfs.gateway.com/x"

/-- Decoded text of the off-ledger example whose pseudo-scheme occurrence is
not at the start. -/
def exC7raw : String := "a/ipfs://x"

/-- What the rewriter produces for exC7raw. -/
def exC7out : String := "a/https://ipfs.io/ipfs/x"

/-- Rewritten form of an ipfs pseudo-scheme URI with path abc. -/
def exC7gw : String := "https://ipfs.io/ipfs/abc"

/-- A short plain string without the pseudo-scheme. -/
def exC7plain : String := "hi"

/-- Example NFT collection base path. -/
def exC8base : String := "https://cdn.example/col/"

/-- Example composed NFT item URL. -/
def exC8full : String := "https://cdn.example/col/5.json"

/-- A decoded two-byte text value. -/
def hiStr : String := "hi"

/-- A faulty-form dictionary value: snake tag plus one data byte, no child
references. -/
def c1cellA : Cell := Cell.mk (bytesToBits [0, 7]) []

/-- A canonical-form dictionary value: the snake chain lives under the first
child reference. -/
def c1cellB : Cell := Cell.mk [] [c1cellA]

/-- A one-byte continuation fragment. -/
def c2cellR : Cell := Cell.mk (bytesToBits [5]) []

/-- A canonical-form value whose snake chain carries no data bytes. -/
def c6cell : Cell := Cell.mk [] [Cell.mk (byteToBits 0) []]

/-- A dictionary with the hashed name key mapping to the empty value. -/
def c6entries : List (Nat × Cell) :=
  [(sha256Key (fieldName JettonMetaDataKeys.name), c6cell)]

/-- The decoded buffer list of c6entries. -/
def c6dict : List (Nat × List Nat) :=
  [(sha256Key (fieldName JettonMetaDataKeys.name), [])]

/-- A canonical-form value whose snake chain carries the bytes of hi. -/
def c6goodCell : Cell := Cell.mk [] [Cell.mk (bytesToBits [0, 104, 105]) []]

/-- A dictionary with the hashed name key mapping to the hi value. -/
def c6goodEntries : List (Nat × Cell) :=
  [(sha256Key (fieldName JettonMetaDataKeys.name), c6goodCell)]

/-- The decoded buffer list of c6goodEntries. -/
def c6goodDict : List (Nat × List Nat) :=
  [(sha256Key (fieldName JettonMetaDataKeys.name), [104, 105])]

/-- Off-ledger content whose decoded text is an ipfs pseudo-scheme URI. -/
def c7cellA : Cell :=
  Cell.mk (bytesToBits [105, 112, 102, 115, 58, 47, 47, 97, 98, 99]) []

/-- Off-ledger content whose decoded text is hi. -/
def c7cellB : Cell := Cell.mk (bytesToBits [104, 105]) []

/-- Off-ledger content whose decoded text contains the pseudo-scheme after
other characters. -/
def c7cellC : Cell :=
  Cell.mk (bytesToBits [97, 47, 105, 112, 102, 115, 58, 47, 47, 120]) []

/-- Collection content cell whose text is the example base path. -/
def c8baseCell : Cell :=
  Cell.mk (bytesToBits [104, 116, 116, 112, 115, 58, 47, 47, 99, 100, 110,
    46, 101, 120, 97, 109, 112, 108, 101, 47, 99, 111, 108, 47]) []

/-- Item content cell with zero remaining bits. -/
def c8emptyCell : Cell := Cell.mk [] []

/-- Item content cell whose text is the example path fragment. -/
def c8itemCell : Cell :=
  Cell.mk (bytesToBits [53, 46, 106, 115, 111, 110]) []

/-- A faulty-form dictionary value carrying only the snake tag. -/
def c10cell : Cell := Cell.mk (byteToBits 0) []

/-- Every byte of every listed buffer is below 256. -/
abbrev AllBytes (bs : List Nat) : Prop := ∀ x ∈ bs, x < 256

lemma byteToBits_mod (b : Nat) : byteToBits (b % 256) = byteToBits b := by
  have h : ∀ i, i < 8 → (b % 2 ^ 8).testBit i = b.testBit i := by
    intro i hi
    rw [Nat.testBit_mod_two_pow]
    simp [hi]
  simp only [byteToBits]
  rw [show (256 : Nat) = 2 ^ 8 from rfl]
  rw [h 7 (by omega), h 6 (by omega), h 5 (by omega), h 4 (by omega),
      h 3 (by omega), h 2 (by omega), h 1 (by omega), h 0 (by omega)]

set_option maxRecDepth 10000 in
lemma byte_roundtrip_small : ∀ r < 256, byteOfBits (byteToBits r) = r := by decide

lemma byteOfBits_byteToBits (b : Nat) : byteOfBits (byteToBits b) = b % 256 := by
  rw [← byteToBits_mod]
  exact byte_roundtrip_small (b % 256) (Nat.mod_lt _ (by omega))

lemma loadUint8_byte (b : Nat) (t : List Bool) :
    loadUint8 (byteToBits b ++ t) = some (b % 256, t) := by
  rw [show loadUint8 (byteToBits b ++ t)
        = some (byteOfBits (byteToBits b), t) from rfl,
      byteOfBits_byteToBits]

lemma padded_byte (b : Nat) (t : List Bool) :
    bitsToPaddedBuffer (byteToBits b ++ t) = b % 256 :: bitsToPaddedBuffer t := by
  rw [show bitsToPaddedBuffer (byteToBits b ++ t)
        = byteOfBits (byteToBits b) :: bitsToPaddedBuffer t from rfl,
      byteOfBits_byteToBits]

lemma padded_bytes (bs : List Nat) :
    bitsToPaddedBuffer (bytesToBits bs) = bs.map (fun x => x % 256) := by
  induction bs with
  | nil => rfl
  | cons b rest ih =>
    rw [show bytesToBits (b :: rest) = byteToBits b ++ bytesToBits rest by
          simp [bytesToBits]]
    rw [padded_byte, ih]
    rfl

lemma map_mod_id (l : List Nat) (h : AllBytes l) : l.map (fun x => x % 256) = l := by
  induction l with
  | nil => rfl
  | cons b rest ih =>
    have hb : b < 256 := h b (by simp)
    have ht : AllBytes rest := fun x hx => h x (by simp [hx])
    simp [Nat.mod_eq_of_lt hb, ih ht]

lemma checkSnakeTag_zero (t : List Bool) :
    checkSnakeTag (byteToBits snakeTagByte ++ t) = Except.ok t := by
  simp [checkSnakeTag, loadUint8_byte, snakeTagByte]

lemma sliceToVal_after (bits rest' : List Bool) (refs : List Cell)
    (v : List Nat) (h : checkSnakeTag bits = Except.ok rest') :
    sliceToVal (Cell.mk bits refs) v true = sliceToVal (Cell.mk rest' refs) v false := by
  cases refs with
  | nil => simp [sliceToVal, h]
  | cons r rs =>
    cases rs with
    | nil => simp [sliceToVal, h]
    | cons r2 rs2 => simp [sliceToVal, h]

lemma chain_decode (rest : List (List Nat)) :
    ∀ (b0 : List Nat) (v : List Nat),
      sliceToVal (chainCells b0 rest) v false =
        Except.ok (v ++ ((b0 :: rest).flatten.map (fun x => x % 256))) := by
  induction rest with
  | nil => intro b0 v; simp [chainCells, sliceToVal, padded_bytes]
  | cons nx more ih =>
    intro b0 v
    rw [show chainCells b0 (nx :: more)
          = Cell.mk (bytesToBits b0) [chainCells nx more] from rfl]
    rw [show sliceToVal (Cell.mk (bytesToBits b0) [chainCells nx more]) v false
          = sliceToVal (chainCells nx more)
              (v ++ bitsToPaddedBuffer (bytesToBits b0)) false from rfl]
    rw [ih nx (v ++ bitsToPaddedBuffer (bytesToBits b0)), padded_bytes]
    simp

lemma chain_decode_first (b0 : List Nat) (rest : List (List Nat)) :
    sliceToVal (chainCells (snakeTagByte :: b0) rest) [] true =
      Except.ok ((b0 :: rest).flatten.map (fun x => x % 256)) := by
  have hb : bytesToBits (snakeTagByte :: b0) = byteToBits snakeTagByte ++ bytesToBits b0 := by
    simp [bytesToBits]
  cases rest with
  | nil =>
    rw [show chainCells (snakeTagByte :: b0) []
          = Cell.mk (bytesToBits (snakeTagByte :: b0)) [] from rfl, hb]
    rw [sliceToVal_after _ (bytesToBits b0) _ _ (checkSnakeTag_zero _)]
    have h := chain_decode [] b0 []
    simp only [chainCells] at h
    simpa using h
  | cons nx more =>
    rw [show chainCells (snakeTagByte :: b0) (nx :: more)
          = Cell.mk (bytesToBits (snakeTagByte :: b0)) [chainCells nx more] from rfl, hb]
    rw [sliceToVal_after _ (bytesToBits b0) _ _ (checkSnakeTag_zero _)]
    have h := chain_decode (nx :: more) b0 []
    simp only [chainCells] at h
    simpa using h

/-- C2: snake-chain decoding of an on-ledger field value.  The first
fragment must begin with the 8-bit snake tag 0x00; any other leading byte
on the first fragment fails with the unsupported-encoding error (the fixed
message snakeErrMsg).  After the tag the first fragment continues exactly
like a non-first fragment; non-first fragments are read without a tag.
After a fragment's remaining bits are appended, padded to whole bytes, the
chain continues into the child cell exactly when the fragment has exactly
one remaining child reference and ends for any other reference count. -/
theorem snake_chain_decoding
    (b : Nat) (t : List Bool) (refs : List Cell) (v : List Nat) (r : Cell)
    (bits : List Bool) (refs2 : List Cell)
    (hb : b < 256) (hb0 : b ≠ snakeTagByte) (h2 : refs2.length ≠ 1) :
    sliceToVal (Cell.mk (byteToBits b ++ t) refs) v true = Except.error snakeErrMsg ∧
    sliceToVal (Cell.mk (byteToBits snakeTagByte ++ t) refs) v true =
      sliceToVal (Cell.mk t refs) v false ∧
    sliceToVal (Cell.mk bits [r]) v false =
      sliceToVal r (v ++ bitsToPaddedBuffer bits) false ∧
    sliceToVal (Cell.mk bits refs2) v false = Except.ok (v ++ bitsToPaddedBuffer bits) := by
  refine ⟨?_, ?_, ?_, ?_⟩
  · have hc : checkSnakeTag (byteToBits b ++ t) = Except.error snakeErrMsg := by
      simp [checkSnakeTag, loadUint8_byte, Nat.mod_eq_of_lt hb, hb0]
    cases refs with
    | nil => simp [sliceToVal, hc]
    | cons r rs =>
      cases rs with
      | nil => simp [sliceToVal, hc]
      | cons r2 rs2 => simp [sliceToVal, hc]
  · exact sliceToVal_after _ _ _ _ (checkSnakeTag_zero t)
  · rfl
  · cases refs2 with
    | nil => rfl
    | cons q qs =>
      cases qs with
      | nil => simp at h2
      | cons q2 qs2 => rfl

/-- Closed witness for snake_chain_decoding at byte 7, a one-fragment
continuation cell and a two-reference terminator. -/
theorem snake_chain_decoding_witness :
    sliceToVal (Cell.mk (byteToBits 7 ++ []) []) [] true = Except.error snakeErrMsg ∧
    sliceToVal (Cell.mk (byteToBits snakeTagByte ++ []) []) [] true =
      sliceToVal (Cell.mk [] []) [] false ∧
    sliceToVal (Cell.mk [] [c2cellR]) [] false =
      sliceToVal c2cellR ([] ++ bitsToPaddedBuffer []) false ∧
    sliceToVal (Cell.mk [] [c2cellR, c2cellR]) [] false =
      Except.ok ([] ++ bitsToPaddedBuffer []) :=
  snake_chain_decoding 7 [] [] [] c2cellR [] [c2cellR, c2cellR]
    (by decide) (by decide) (by decide)

/-- C9: snake-chain reconstruction is invariant under fragmentation — for
any byte string split as b1 plus b2 plus b3, decoding the three-cell chain,
either two-cell chain, or the single cell packing all bytes yields the same
byte buffer. -/
theorem snake_fragmentation_invariance
    (b1 b2 b3 : List Nat) (h : AllBytes (b1 ++ b2 ++ b3)) :
    sliceToVal (chainCells (snakeTagByte :: b1) [b2, b3]) [] true =
      Except.ok (b1 ++ b2 ++ b3) ∧
    sliceToVal (chainCells (snakeTagByte :: b1) [b2 ++ b3]) [] true =
      Except.ok (b1 ++ b2 ++ b3) ∧
    sliceToVal (chainCells (snakeTagByte :: (b1 ++ b2)) [b3]) [] true =
      Except.ok (b1 ++ b2 ++ b3) ∧
    sliceToVal (chainCells (snakeTagByte :: (b1 ++ b2 ++ b3)) []) [] true =
      Except.ok (b1 ++ b2 ++ b3) := by
  have hmap : (b1 ++ b2 ++ b3).map (fun x => x % 256) = b1 ++ b2 ++ b3 :=
    map_mod_id _ h
  refine ⟨?_, ?_, ?_, ?_⟩
  · rw [chain_decode_first]
    simp only [List.flatten, List.flatten_nil, List.append_nil, ← List.append_assoc]
    rw [hmap]
  · rw [chain_decode_first]
    simp only [List.flatten, List.flatten_nil, List.append_nil, ← List.append_assoc]
    rw [hmap]
  · rw [chain_decode_first]
    simp only [List.flatten, List.flatten_nil, List.append_nil, ← List.append_assoc]
    rw [hmap]
  · rw [chain_decode_first]
    simp only [List.flatten, List.flatten_nil, List.append_nil, ← List.append_assoc]
    rw [hmap]

/-- Closed witness for snake_fragmentation_invariance on the bytes 104,
105, 255 split as one byte, two bytes, and the empty fragment. -/
theorem snake_fragmentation_invariance_witness :
    sliceToVal (chainCells (snakeTagByte :: [104]) [[105, 255], []]) [] true =
      Except.ok ([104] ++ [105, 255] ++ []) ∧
    sliceToVal (chainCells (snakeTagByte :: [104]) [[105, 255] ++ []]) [] true =
      Except.ok ([104] ++ [105, 255] ++ []) ∧
    sliceToVal (chainCells (snakeTagByte :: ([104] ++ [105, 255])) [[]]) [] true =
      Except.ok ([104] ++ [105, 255] ++ []) ∧
    sliceToVal (chainCells (snakeTagByte :: ([104] ++ [105, 255] ++ [])) []) [] true =
      Except.ok ([104] ++ [105, 255] ++ []) :=
  snake_fragmentation_invariance [104] [105, 255] [] (by decide)

lemma readDictValue_flag (c : Cell) (v : List Nat) (f : Bool)
    (h : readDictValue c = Except.ok (v, f)) : f = true ↔ c.refs = [] := by
  cases c with
  | mk bits refs =>
    cases refs with
    | nil =>
      cases hs : sliceToVal (Cell.mk bits []) [] true with
      | error e => simp [readDictValue, Cell.refs, hs, Except.map] at h
      | ok v' =>
        simp [readDictValue, Cell.refs, hs, Except.map] at h
        simp [Cell.refs, h.2.symm]
    | cons r rs =>
      cases hs : sliceToVal r [] true with
      | error e => simp [readDictValue, Cell.refs, hs, Except.map] at h
      | ok v' =>
        simp [readDictValue, Cell.refs, hs, Except.map] at h
        simp [Cell.refs, h.2.symm]

lemma parseEntries_ok_cons (k0 : Nat) (c0 : Cell) (tl : List (Nat × Cell))
    (d : List (Nat × List Nat)) (f : Bool)
    (h : parseEntries ((k0, c0) :: tl) = Except.ok (d, f)) :
    ∃ v0 f0 d' f', readDictValue c0 = Except.ok (v0, f0) ∧
      parseEntries tl = Except.ok (d', f') ∧
      d = (k0, v0) :: d' ∧ f = (f0 || f') := by
  cases hr : readDictValue c0 with
  | error e => simp [parseEntries, hr] at h
  | ok vf =>
    obtain ⟨v0, f0⟩ := vf
    cases hp : parseEntries tl with
    | error e => simp [parseEntries, hr, hp] at h
    | ok dfr =>
      obtain ⟨d', f'⟩ := dfr
      simp [parseEntries, hr, hp] at h
      exact ⟨v0, f0, d', f', rfl, rfl, h.1.symm, h.2.symm⟩

lemma parseEntries_flag : ∀ (entries : List (Nat × Cell))
    (d : List (Nat × List Nat)) (f : Bool),
    parseEntries entries = Except.ok (d, f) →
    (f = true ↔ ∃ e ∈ entries, (Prod.snd e).refs = ([] : List Cell)) := by
  intro entries
  induction entries with
  | nil =>
    intro d f h
    simp [parseEntries] at h
    simp [h.2.symm]
  | cons hd tl ih =>
    obtain ⟨k0, c0⟩ := hd
    intro d f h
    obtain ⟨v0, f0, d', f', hr, hp, hd1, hf⟩ := parseEntries_ok_cons _ _ _ _ _ h
    subst hf
    have h1 := readDictValue_flag _ _ _ hr
    have h2 := ih d' f' hp
    simp only [Bool.or_eq_true, List.mem_cons]
    constructor
    · rintro (hc | hc)
      · exact ⟨(k0, c0), Or.inl rfl, h1.mp hc⟩
      · obtain ⟨e, he, hee⟩ := h2.mp hc
        exact ⟨e, Or.inr he, hee⟩
    · rintro ⟨e, (rfl | he), hee⟩
      · exact Or.inl (h1.mpr hee)
      · exact Or.inr (h2.mpr ⟨e, he, hee⟩)

lemma parseEntries_lookup_none : ∀ (entries : List (Nat × Cell))
    (d : List (Nat × List Nat)) (f : Bool),
    parseEntries entries = Except.ok (d, f) →
    ∀ k, List.lookup k entries = none → List.lookup k d = none := by
  intro entries
  induction entries with
  | nil =>
    intro d f h k _
    simp [parseEntries] at h
    rw [h.1]
    rfl
  | cons hd tl ih =>
    obtain ⟨k0, c0⟩ := hd
    intro d f h k hk
    obtain ⟨v0, f0, d', f', hr, hp, hd1, hf⟩ := parseEntries_ok_cons _ _ _ _ _ h
    subst hd1
    cases hbeq : (k == k0) with
    | true =>
      simp only [List.lookup, hbeq] at hk
      exact Option.noConfusion hk
    | false =>
      simp only [List.lookup, hbeq] at hk ⊢
      exact ih d' f' hp k hk

lemma parseEntries_lookup_some : ∀ (entries : List (Nat × Cell))
    (d : List (Nat × List Nat)) (f : Bool),
    parseEntries entries = Except.ok (d, f) →
    ∀ k c, List.lookup k entries = some c →
      ∃ v b, readDictValue c = Except.ok (v, b) ∧ List.lookup k d = some v := by
  intro entries
  induction entries with
  | nil => intro d f h k c hk; simp [List.lookup] at hk
  | cons hd tl ih =>
    obtain ⟨k0, c0⟩ := hd
    intro d f h k c hk
    obtain ⟨v0, f0, d', f', hr, hp, hd1, hf⟩ := parseEntries_ok_cons _ _ _ _ _ h
    subst hd1
    cases hbeq : (k == k0) with
    | true =>
      simp only [List.lookup, hbeq, Option.some.injEq] at hk
      subst hk
      refine ⟨v0, f0, hr, ?_⟩
      simp only [List.lookup, hbeq]
    | false =>
      simp only [List.lookup, hbeq] at hk ⊢
      exact ih d' f' hp k c hk

/-- C1: faulty-encoding detection.  A dictionary value slice with zero
remaining child references is decoded as the faulty non-indirected form —
the snake chain is parsed starting at that slice and the per-entry flag is
true; a value slice with one or more references is decoded by descending
into the first child reference with the per-entry flag false.  Over a whole
dictionary the record flag is true exactly when at least one entry had zero
references. -/
theorem onchain_faulty_flag_detection :
    (∀ c : Cell, c.refs = [] →
      readDictValue c = (sliceToVal c [] true).map (fun v => (v, true))) ∧
    (∀ (c r : Cell) (rs : List Cell), c.refs = r :: rs →
      readDictValue c = (sliceToVal r [] true).map (fun v => (v, false))) ∧
    (∀ (entries : List (Nat × Cell)) (d : List (Nat × List Nat)) (f : Bool),
      parseEntries entries = Except.ok (d, f) →
      (f = true ↔ ∃ e ∈ entries, (Prod.snd e).refs = ([] : List Cell))) := by
  refine ⟨?_, ?_, parseEntries_flag⟩
  · intro c h
    cases c with
    | mk bits refs =>
      simp [Cell.refs] at h
      subst h
      rfl
  · intro c r rs h
    cases c with
    | mk bits refs =>
      simp [Cell.refs] at h
      subst h
      rfl

/-- Closed witness for onchain_faulty_flag_detection: a zero-reference
value, a one-reference value, and a one-entry dictionary whose flag is
true. -/
theorem onchain_faulty_flag_detection_witness :
    readDictValue c1cellA = (sliceToVal c1cellA [] true).map (fun v => (v, true)) ∧
    readDictValue c1cellB = (sliceToVal c1cellA [] true).map (fun v => (v, false)) ∧
    (true = true ↔ ∃ e ∈ [((5 : Nat), c1cellA)], (Prod.snd e).refs = ([] : List Cell)) :=
  ⟨onchain_faulty_flag_detection.1 c1cellA rfl,
   onchain_faulty_flag_detection.2.1 c1cellB c1cellA [] rfl,
   onchain_faulty_flag_detection.2.2 [(5, c1cellA)] [(5, [7])] true rfl⟩

/-- C6 (amended): for each known field, given a successful whole-record
parse, an absent hashed key leaves the field absent without error, and a
present key whose value decodes to buffer v yields the field exactly when
the converted string is nonempty — a value decoding to the empty string is
dropped by the truthiness test. -/
theorem field_presence
    (entries : List (Nat × Cell)) (m : Metadata) (f : Bool)
    (hp : parseJettonOnchainEntries entries = Except.ok (m, f))
    (fk : JettonMetaDataKeys) :
    (List.lookup (sha256Key (fieldName fk)) entries = none → m fk = none) ∧
    (∀ (c : Cell) (v : List Nat) (b : Bool),
      List.lookup (sha256Key (fieldName fk)) entries = some c →
      readDictValue c = Except.ok (v, b) →
      m fk = if bufferToString (jettonOnChainMetadataSpec fk) v = "" then none
             else some (bufferToString (jettonOnChainMetadataSpec fk) v)) := by
  cases hpe : parseEntries entries with
  | error e => simp [parseJettonOnchainEntries, hpe] at hp
  | ok df =>
    obtain ⟨d, f'⟩ := df
    simp [parseJettonOnchainEntries, hpe] at hp
    obtain ⟨hm, hf⟩ := hp
    constructor
    · intro hnone
      have hld := parseEntries_lookup_none entries d f' hpe _ hnone
      rw [← hm]
      simp [buildRes, hld]
    · intro c v b hlc hrc
      obtain ⟨v', b', hr', hld⟩ := parseEntries_lookup_some entries d f' hpe _ c hlc
      rw [hrc] at hr'
      have hvv : v' = v := by
        cases hr'
        rfl
      subst hvv
      rw [← hm]
      simp [buildRes, hld]

/-- Closed witness for field_presence: a present name key whose value
decodes to hi appears in the result. -/
theorem field_presence_witness :
    buildRes c6goodDict JettonMetaDataKeys.name =
      (if bufferToString (jettonOnChainMetadataSpec JettonMetaDataKeys.name) [104, 105] = ""
       then none
       else some (bufferToString (jettonOnChainMetadataSpec JettonMetaDataKeys.name) [104, 105])) ∧
    buildRes c6goodDict JettonMetaDataKeys.name = some hiStr := by
  have h := (field_presence c6goodEntries (buildRes c6goodDict) false rfl
      JettonMetaDataKeys.name).2 c6goodCell [104, 105] false
      (by simp [c6goodEntries, List.lookup]) rfl
  exact ⟨h, h.trans (by decide)⟩

/-- Counterexample to C6 as stated: the name key is present and its value
decodes successfully (to the empty buffer, hence the empty string), the
whole parse succeeds, and yet the name field is absent from the result —
a successfully decoded empty value is silently dropped. -/
theorem empty_string_dropped_cex :
    List.lookup (sha256Key (fieldName JettonMetaDataKeys.name)) c6entries = some c6cell ∧
    readDictValue c6cell = Except.ok ([], false) ∧
    parseJettonOnchainEntries c6entries = Except.ok (buildRes c6dict, false) ∧
    buildRes c6dict JettonMetaDataKeys.name = none := by
  refine ⟨by simp [c6entries, List.lookup], rfl, rfl, ?_⟩
  simp [buildRes, c6dict, List.lookup, bufferToString, jettonOnChainMetadataSpec,
    utf8DecodeList]

/-- C10: dictionary entries whose key is outside the six hashed field keys
are still decoded: a zero-reference value under an unknown key sets the
whole-record flag while contributing nothing to the result mapping, and a
malformed snake value under an unknown key aborts the whole decode with the
snake error. -/
theorem unknown_key_effects
    (k0 : Nat) (c : Cell) (v : List Nat) (b : Nat) (t : List Bool)
    (hk : ∀ fk : JettonMetaDataKeys, sha256Key (fieldName fk) ≠ k0)
    (hc : c.refs = ([] : List Cell))
    (hv : sliceToVal c [] true = Except.ok v)
    (hb : b < 256) (hb0 : b ≠ snakeTagByte) :
    parseJettonOnchainEntries [(k0, c)] = Except.ok (buildRes [(k0, v)], true) ∧
    (∀ fk : JettonMetaDataKeys, buildRes [(k0, v)] fk = none) ∧
    parseJettonOnchainEntries [(k0, Cell.mk (byteToBits b ++ t) [])] =
      Except.error snakeErrMsg := by
  refine ⟨?_, ?_, ?_⟩
  · have hrd : readDictValue c = Except.ok (v, true) := by
      cases c with
      | mk bits refs =>
        simp [Cell.refs] at hc
        subst hc
        simp [readDictValue, Cell.refs, hv, Except.map]
    simp [parseJettonOnchainEntries, parseEntries, hrd]
  · intro fk
    have hbeq : (sha256Key (fieldName fk) == k0) = false := by
      simp [hk fk]
    simp [buildRes, List.lookup, hbeq]
  · have hcc : checkSnakeTag (byteToBits b ++ t) = Except.error snakeErrMsg := by
      simp [checkSnakeTag, loadUint8_byte, Nat.mod_eq_of_lt hb, hb0]
    have he : sliceToVal (Cell.mk (byteToBits b ++ t) []) [] true =
        Except.error snakeErrMsg := by
      simp [sliceToVal, hcc]
    simp [parseJettonOnchainEntries, parseEntries, readDictValue, Cell.refs, he,
      Except.map]

set_option maxRecDepth 100000 in
/-- Closed witness for unknown_key_effects at key 0, which differs from all
six hashed field keys. -/
theorem unknown_key_effects_witness :
    parseJettonOnchainEntries [((0 : Nat), c10cell)] =
      Except.ok (buildRes [((0 : Nat), ([] : List Nat))], true) ∧
    buildRes [((0 : Nat), ([] : List Nat))] JettonMetaDataKeys.name = none ∧
    parseJettonOnchainEntries [((0 : Nat), Cell.mk (byteToBits 7 ++ []) [])] =
      Except.error snakeErrMsg := by
  have h := unknown_key_effects 0 c10cell [] 7 []
      (by intro fk; cases fk <;> decide) rfl rfl (by decide) (by decide)
  exact ⟨h.1, h.2.1 JettonMetaDataKeys.name, h.2.2⟩

lemma leadsWith_replaceFirstL (pat rep l : List Char) (h : leadsWith pat l = true) :
    replaceFirstL pat rep l = rep ++ l.drop pat.length := by
  cases l with
  | nil =>
    cases pat with
    | nil => simp [replaceFirstL, leadsWith]
    | cons p ps => simp [leadsWith] at h
  | cons c cs => simp [replaceFirstL, h]

lemma not_contains_replaceFirstL (pat rep : List Char) :
    ∀ l : List Char, containsSub pat l = false → replaceFirstL pat rep l = l := by
  intro l
  induction l with
  | nil =>
    intro h
    simp only [containsSub] at h
    simp [replaceFirstL, h]
  | cons c cs ih =>
    intro h
    simp only [containsSub, Bool.or_eq_false_iff] at h
    simp [replaceFirstL, h.1, ih h.2]

lemma ipfsAfterSlash_iff : ∀ l : List Char,
    ipfsAfterSlash l = true ↔
      ∃ pre post, l = pre ++ '/' :: post ∧ ipfsMatchHere post = true := by
  intro l
  induction l with
  | nil =>
    constructor
    · intro h
      simp [ipfsAfterSlash] at h
    · rintro ⟨pre, post, h, _⟩
      exact absurd h (by simp)
  | cons c cs ih =>
    constructor
    · intro h
      simp only [ipfsAfterSlash, Bool.or_eq_true, Bool.and_eq_true, beq_iff_eq] at h
      rcases h with ⟨hc, hm⟩ | h2
      · exact ⟨[], cs, by rw [hc]; rfl, hm⟩
      · obtain ⟨pre, post, he, hm⟩ := ih.mp h2
        exact ⟨c :: pre, post, by rw [he]; rfl, hm⟩
    · rintro ⟨pre, post, he, hm⟩
      cases pre with
      | nil =>
        simp only [List.nil_append, List.cons.injEq] at he
        simp [ipfsAfterSlash, he.1, he.2.symm ▸ hm]
      | cons p ps =>
        simp only [List.cons_append, List.cons.injEq] at he
        simp only [ipfsAfterSlash, Bool.or_eq_true]
        exact Or.inr (ih.mpr ⟨ps, post, he.2, hm⟩)

/-- C4 (amended): the IPFS classification matches exactly when ipfs
followed by a dot or colon occurs at the very start of the string or right
after some slash; the rewritten gateway URI classifies as IPFS, the
private-domain URI does not, and neither does the gateway URL whose host
merely ends in ipfs (the heuristic requires the match right after the start
or a slash). -/
theorem ipfs_classification :
    (∀ l : List Char, ipfsMatchHere l = true ↔
      ∃ c rest, l = 'i' :: 'p' :: 'f' :: 's' :: c :: rest ∧ (c = '.' ∨ c = ':')) ∧
    (∀ s : String, isIpfsUri s = true ↔
      (ipfsMatchHere s.data = true ∨
        ∃ pre post, s.data = pre ++ '/' :: post ∧ ipfsMatchHere post = true)) ∧
    isIpfsUri exUri1 = true ∧ isIpfsUri exUri2 = false ∧ isIpfsUri exUri3 = false := by
  refine ⟨?_, ?_, by decide, by decide, by decide⟩
  · intro l
    constructor
    · intro h
      rw [ipfsMatchHere.eq_def] at h
      split at h
      · rename_i c rest
        simp only [Bool.or_eq_true, beq_iff_eq] at h
        exact ⟨c, rest, rfl, h⟩
      · exact absurd h (by simp)
    · rintro ⟨c, rest, rfl, hc⟩
      rcases hc with rfl | rfl <;> rfl
  · intro s
    rw [isIpfsUri, Bool.or_eq_true, ipfsAfterSlash_iff]

/-- Counterexample to C4 as stated: the gateway URL whose host merely ends
in ipfs classifies as non-IPFS, because its ipfs-dot occurrence follows the
letter y, not the start of the string or a slash. -/
theorem ipfs_classification_gateway_cex : isIpfsUri exUri3 = false := by decide

/-- C7 (amended): the decoded off-ledger string has the first occurrence of
the ipfs pseudo-scheme anywhere in the string replaced by the gateway URL;
in particular a string that begins with the pseudo-scheme has its seven-
character head substituted, and a string with no occurrence at all is
passed to the fetcher unchanged. -/
theorem uri_rewrite (c : Cell) :
    (leadsWith ipfsSchemeChars (offchainRawText c).data = true →
      offchainJsonURI c =
        String.mk (gatewayChars ++ (offchainRawText c).data.drop 7)) ∧
    (containsSub ipfsSchemeChars (offchainRawText c).data = false →
      offchainJsonURI c = offchainRawText c) := by
  constructor
  · intro h
    rw [offchainJsonURI, leadsWith_replaceFirstL _ _ _ h]
    rfl
  · intro h
    rw [offchainJsonURI, not_contains_replaceFirstL _ _ _ h]

/-- Closed witness for uri_rewrite: a pseudo-scheme URI is rewritten to the
gateway form and a plain string passes through unchanged. -/
theorem uri_rewrite_witness :
    offchainJsonURI c7cellA = exC7gw ∧ offchainJsonURI c7cellB = exC7plain := by
  constructor
  · exact ((uri_rewrite c7cellA).1 (by decide)).trans (by decide)
  · exact ((uri_rewrite c7cellB).2 (by decide)).trans (by decide)

/-- Counterexample to C7 as stated: a decoded string that does not begin
with the pseudo-scheme but contains it later is not passed to the fetcher
unchanged — the mid-string occurrence is substituted. -/
theorem uri_rewrite_midstring_cex :
    offchainRawText c7cellC = exC7raw ∧
    leadsWith ipfsSchemeChars exC7raw.data = false ∧
    offchainJsonURI c7cellC = exC7out ∧
    exC7out ≠ exC7raw := by
  refine ⟨by decide, by decide, by decide, by decide⟩

/-- C3 (amended): content dispatch reads the first eight bits as a tag;
tag 0x00 delegates to the on-ledger parser on the remaining slice, tag 0x01
delegates to the off-ledger resolver on the remaining slice, and every
other byte value fails with the fixed unknown-tag error without invoking
either parser (the result is the constant error for every reader and
fetcher). -/
theorem content_dispatch
    (pd : Cell → List (Nat × Cell)) (fetch : String → Metadata)
    (t : Nat) (rest : List Bool) (refs : List Cell)
    (ht : t < 256) (h0 : t ≠ onchainTagByte) (h1 : t ≠ offchainTagByte) :
    (readContent pd fetch (Cell.mk (byteToBits onchainTagByte ++ rest) refs) =
      match parseJettonOnchainMetadata pd (Cell.mk rest refs) with
      | Except.error e => Except.error e
      | Except.ok mf => Except.ok ⟨PersistenceType.onchain, mf.1, some mf.2⟩) ∧
    (readContent pd fetch (Cell.mk (byteToBits offchainTagByte ++ rest) refs) =
      Except.ok ⟨if (parseJettonOffchainMetadata fetch (Cell.mk rest refs)).2
                 then PersistenceType.offchain_ipfs
                 else PersistenceType.offchain_private_domain,
                 (parseJettonOffchainMetadata fetch (Cell.mk rest refs)).1, none⟩) ∧
    readContent pd fetch (Cell.mk (byteToBits t ++ rest) refs) =
      Except.error unknownTagMsg := by
  refine ⟨?_, ?_, ?_⟩
  · cases hpm : parseJettonOnchainMetadata pd (Cell.mk rest refs) with
    | error e =>
      simp [readContent, Cell.bits, Cell.refs, loadUint8_byte, onchainTagByte, hpm]
    | ok mf =>
      obtain ⟨m, fl⟩ := mf
      simp [readContent, Cell.bits, Cell.refs, loadUint8_byte, onchainTagByte, hpm]
  · simp [readContent, Cell.bits, Cell.refs, loadUint8_byte, onchainTagByte,
      offchainTagByte, parseJettonOffchainMetadata]
  · simp [readContent, Cell.bits, Cell.refs, loadUint8_byte, Nat.mod_eq_of_lt ht,
      h0, h1]

/-- Closed witness for content_dispatch at tag byte 2 with the trivial
external reader and fetcher. -/
theorem content_dispatch_witness :
    (readContent pd0 fetch0 (Cell.mk (byteToBits onchainTagByte ++ []) []) =
      match parseJettonOnchainMetadata pd0 (Cell.mk [] []) with
      | Except.error e => Except.error e
      | Except.ok mf => Except.ok ⟨PersistenceType.onchain, mf.1, some mf.2⟩) ∧
    (readContent pd0 fetch0 (Cell.mk (byteToBits offchainTagByte ++ []) []) =
      Except.ok ⟨if (parseJettonOffchainMetadata fetch0 (Cell.mk [] [])).2
                 then PersistenceType.offchain_ipfs
                 else PersistenceType.offchain_private_domain,
                 (parseJettonOffchainMetadata fetch0 (Cell.mk [] [])).1, none⟩) ∧
    readContent pd0 fetch0 (Cell.mk (byteToBits 2 ++ []) []) =
      Except.error unknownTagMsg :=
  content_dispatch pd0 fetch0 2 [] [] (by decide) (by decide) (by decide)

/-- Counterexample to C3 as stated: the unknown-tag error is one fixed
value — two different offending bytes produce identical errors, so the
error does not carry the offending byte. -/
theorem content_dispatch_error_is_fixed_cex :
    readContent pd0 fetch0 (Cell.mk (byteToBits 2) []) =
      readContent pd0 fetch0 (Cell.mk (byteToBits 3) []) ∧
    (2 : Nat) ≠ 3 := by
  refine ⟨rfl, by decide⟩

/-- C5 (amended): the assembled buffer of each of name, description,
symbol and decimals is converted as UTF-8 text; image is converted as an
ascii-safe string; and image_data, whose encoding entry is undefined, is
converted with the parameterless default — UTF-8 text — rather than kept
as raw bytes. -/
theorem field_encoding_table (buf : List Nat) :
    bufferToString (jettonOnChainMetadataSpec JettonMetaDataKeys.name) buf =
      String.mk (utf8DecodeList buf) ∧
    bufferToString (jettonOnChainMetadataSpec JettonMetaDataKeys.description) buf =
      String.mk (utf8DecodeList buf) ∧
    bufferToString (jettonOnChainMetadataSpec JettonMetaDataKeys.symbol) buf =
      String.mk (utf8DecodeList buf) ∧
    bufferToString (jettonOnChainMetadataSpec JettonMetaDataKeys.decimals) buf =
      String.mk (utf8DecodeList buf) ∧
    bufferToString (jettonOnChainMetadataSpec JettonMetaDataKeys.image) buf =
      String.mk (asciiDecode buf) ∧
    bufferToString (jettonOnChainMetadataSpec JettonMetaDataKeys.image_data) buf =
      String.mk (utf8DecodeList buf) :=
  ⟨rfl, rfl, rfl, rfl, rfl, rfl⟩

/-- Counterexample to C5 as stated: image_data is not an opaque byte
sequence — two distinct one-byte buffers convert to the same one-character
replacement text, so the bytes are decoded (lossily) into text. -/
theorem image_data_not_raw_cex :
    bufferToString (jettonOnChainMetadataSpec JettonMetaDataKeys.image_data) [255] =
      bufferToString (jettonOnChainMetadataSpec JettonMetaDataKeys.image_data) [254] ∧
    (255 : Nat) ≠ 254 ∧
    bufferToString (jettonOnChainMetadataSpec JettonMetaDataKeys.image_data) [255] =
      String.mk [replChar] :=
  ⟨rfl, by decide, rfl⟩

/-- C8: NFT item path composition — an item content cell with zero
remaining bits fetches exactly the collection-provided base path, and one
with remaining bits fetches exactly the base path concatenated with the
item's decoded fragment, with no separator inserted. -/
theorem nft_item_path (fetch : String → String) (cc ic : Cell) :
    (ic.bits.length = 0 → readNftItemMetadata fetch cc ic = fetch (cellText cc)) ∧
    (ic.bits.length ≠ 0 →
      readNftItemMetadata fetch cc ic = fetch (cellText cc ++ cellText ic)) := by
  constructor
  · intro h
    simp [readNftItemMetadata, h]
  · intro h
    simp [readNftItemMetadata, h]

/-- Closed witness for nft_item_path: the empty item fetches the base path
and the 5.json fragment composes onto the base path with no separator. -/
theorem nft_item_path_witness :
    readNftItemMetadata idFetch c8baseCell c8emptyCell = exC8base ∧
    readNftItemMetadata idFetch c8baseCell c8itemCell = exC8full := by
  constructor
  · exact ((nft_item_path idFetch c8baseCell c8emptyCell).1 rfl).trans (by decide)
  · exact ((nft_item_path idFetch c8baseCell c8itemCell).2 (by decide)).trans (by decide)

set_option maxRecDepth 100000 in
example : sha256Nat [0x61, 0x62, 0x63] =
    0xba7816bf8f01cfea414140de5dae2223b00361a396177a9cb410ff61f20015ad := by decide

set_option maxRecDepth 100000 in
example : sha256Nat [] =
    0xe3b0c44298fc1c149afbf4c8996fb92427ae41e4649b934ca495991b7852b855 := by decide

example : utf8DecodeList [0x61, 0xC3, 0xA9] = ['a', 'é'] := by decide

example : parseEntries [] = Except.ok ([], false) := rfl
